import Mathlib

/-!
Verification development for the product-market-research repository.

Pure functions of the React frontend (`researchConfig.js`, `useResearchTasks.js`,
`ResearchForm`, `ResearchTaskCard`, `ActiveResearchProgress`) are embedded as
Lean functions. The relational schema (`backend/database_schema.sql`) is embedded
as a predicate on table states. The backend orchestrator, credit ledger and
checkpoint tracker are not present in the repository sources; their operations
are modelled from the specification (marked `Modelled from the spec:` in their
doc comments) and verified against it.
-/

namespace PMR

/-! ## Research configuration (src/frontend/src/constants/researchConfig.js) -/

structure ResearchConfig where
  label : String
  description : String
  color : String
deriving DecidableEq, Repr

def basicConfig : ResearchConfig :=
  { label := "Essential Research"
    description := "Fast market validation with key insights and competitor overview"
    color := "bg-blue-100 text-blue-700" }

def standardConfig : ResearchConfig :=
  { label := "Standard Research"
    description := "Detailed market analysis with customer insights and strategic recommendations"
    color := "bg-green-100 text-green-700" }

def comprehensiveConfig : ResearchConfig :=
  { label := "Deep Research"
    description := "Comprehensive intelligence with in-depth competitor analysis and actionable strategies"
    color := "bg-purple-100 text-purple-700" }

/-- The members a bracket lookup on a plain object literal reaches through the
prototype chain when the key is not an own property: the properties of
`Object.prototype`. Each of them is truthy — a function, or the prototype
object itself for `__proto__`. -/
def objectPrototypeMembers : List String :=
  ["constructor", "hasOwnProperty", "isPrototypeOf", "propertyIsEnumerable",
   "toLocaleString", "toString", "valueOf", "__proto__",
   "__defineGetter__", "__defineSetter__", "__lookupGetter__", "__lookupSetter__"]

/-- The value a `configs[depth] || configs.standard` lookup can produce:
one of the tier configuration objects, or a truthy value inherited from
`Object.prototype` (identified here by the member name). -/
inductive JsLookup where
  | config (c : ResearchConfig)
  | protoMember (name : String)
deriving DecidableEq, Repr

/-- `getResearchConfig` from researchConfig.js: `configs[depth] || configs.standard`.
A JavaScript caller may pass `undefined`, embedded as `none`. Bracket access
on the object literal first finds the own properties `basic`, `standard`,
`comprehensive`; for any other string key it consults the prototype chain, so
a key naming an `Object.prototype` member yields that inherited truthy value,
which `||` returns instead of `configs.standard`. Only keys found in neither
place (and `undefined`) fall back to the standard configuration. -/
def getResearchConfig : Option String → JsLookup
  | some "basic" => .config basicConfig
  | some "standard" => .config standardConfig
  | some "comprehensive" => .config comprehensiveConfig
  | some d =>
    if d ∈ objectPrototypeMembers then .protoMember d else .config standardConfig
  | none => .config standardConfig

/-- `RESEARCH_DEPTHS` from researchConfig.js. -/
def RESEARCH_DEPTHS : List String := ["basic", "standard", "comprehensive"]

/-- Credit cost per depth tier, from the Research Depth Options table in the
repository documentation (README table: Essential/basic = 6 credits,
Standard = 12 credits, Deep/comprehensive = 18 credits; the same figures appear
under Credit Costs in TECHNICAL_DOCUMENTATION). Unknown depths have no cost. -/
def creditCost : String → Option Nat
  | "basic" => some 6
  | "standard" => some 12
  | "comprehensive" => some 18
  | _ => none

/-! ## Frontend task objects (src/frontend/src/hooks/useResearchTasks.js) -/

structure Task where
  request_id : String
  product_idea : String
  research_depth : String
  status : String
  started_at : String
  progress : Nat
  current_step : String
deriving DecidableEq, Repr

/-- `addTask` from useResearchTasks.js: prepends the task to the list. -/
def addTask (t : Task) (tasks : List Task) : List Task := t :: tasks

/-- `removeTask` from useResearchTasks.js: filters out the task with the
given request id. -/
def removeTask (requestId : String) (tasks : List Task) : List Task :=
  tasks.filter (fun t => t.request_id ≠ requestId)

/-- The task object built by `submitProductResearch` on a successful response:
status `processing`, progress `0`, current step `initializing`. -/
def submitNewTask (request_id productIdea researchDepth now : String) : Task :=
  { request_id := request_id
    product_idea := productIdea
    research_depth := researchDepth
    status := "processing"
    started_at := now
    progress := 0
    current_step := "initializing" }

/-- The task object built by `rerunTask` on a successful response:
status `pending`, progress `0`, current step `initializing`; idea and depth
are echoed back by the rerun endpoint. -/
def rerunNewTask (request_id productIdea researchDepth now : String) : Task :=
  { request_id := request_id
    product_idea := productIdea
    research_depth := researchDepth
    status := "pending"
    started_at := now
    progress := 0
    current_step := "initializing" }

/-- The task-list update performed by `rerunTask` after a successful response:
remove the old task from the active view, prepend the fresh one. -/
def rerunTaskListUpdate (oldRequestId : String) (newTask : Task)
    (tasks : List Task) : List Task :=
  addTask newTask (removeTask oldRequestId tasks)

/-- Terminal task statuses (spec §4.1 / glossary): `completed`, `failed`,
`aborted`. -/
def isTerminalStatus (s : String) : Bool :=
  s == "completed" || s == "failed" || s == "aborted"

/-! ## Research form gating (ResearchForm component) -/

/-- `hasCreditsForSelectedDepth` from the ResearchForm component:
`false` while remaining counts are absent or loading, otherwise
`searchesRemaining[researchDepth] || 0 > 0`. The remaining-counts object is
embedded as a total map defaulting to `0` for absent keys. -/
def hasCreditsForSelectedDepth (searchesRemaining : Option (String → Nat))
    (isLoadingSearches : Bool) (researchDepth : String) : Bool :=
  match searchesRemaining with
  | none => false
  | some sr => if isLoadingSearches then false else decide (0 < sr researchDepth)

/-- JavaScript's `String.prototype.trim`, embedded over the character list:
drop leading and trailing whitespace. -/
def jsTrim (s : String) : String :=
  ⟨((s.data.dropWhile Char.isWhitespace).reverse.dropWhile Char.isWhitespace).reverse⟩

/-- The `disabled` condition of the ResearchForm submit button:
`isSubmitting || !productIdea.trim() || !hasCreditsForSelectedDepth()`. -/
def submitButtonDisabled (isSubmitting : Bool) (productIdea : String)
    (hasCredits : Bool) : Bool :=
  isSubmitting || jsTrim productIdea == "" || !hasCredits

/-! ## Task card action buttons (ResearchTaskCard component) -/

structure CardButtons where
  showExport : Bool
  showAbort : Bool
  showRerun : Bool
  showDelete : Bool
deriving DecidableEq, Repr

/-- The action buttons rendered by ResearchTaskCard: while a report is loading
only a spinner shows; otherwise export shows for `completed` tasks, abort shows
for `processing` tasks, and rerun and delete show for every other status. -/
def researchTaskCardButtons (status : String) (isLoadingReport : Bool) : CardButtons :=
  if isLoadingReport then
    { showExport := false, showAbort := false, showRerun := false, showDelete := false }
  else
    { showExport := status == "completed"
      showAbort := status == "processing"
      showRerun := !(status == "processing")
      showDelete := !(status == "processing") }

/-! ## Spec-modelled backend orchestrator and ledger interface

The backend service code (FastAPI routes, credit service, Celery worker) is not
under the repository sources; the operations below are modelled from the
specification (§4.1 Orchestrator, §4.3 Credit Ledger, §6 interfaces). -/

inductive ApiError where
  | validationError
  | insufficientCredits
  | invalidState
  | notFound
deriving DecidableEq, Repr

/-- Backend system state: the user's current credit balance, the task store,
and the queue of enqueued execution jobs. -/
structure BackendState where
  balance : Int
  tasks : List Task
  queue : List String
deriving DecidableEq, Repr

/-- Modelled from the spec: Orchestrator `Submit(idea, depth)` (§4.1) — absent
from the repository sources. Validates non-empty idea and known depth, computes
the credit cost from the fixed table, fails fast with `InsufficientCredits`
before any task record is created when the balance is too low, and otherwise
debits the ledger, creates the task (status `processing`, progress `0`),
enqueues the execution job and returns the new task id. -/
def SubmitM (st : BackendState) (idea depth newId now : String) :
    BackendState × Except ApiError String :=
  if jsTrim idea == "" then (st, .error .validationError)
  else
    match creditCost depth with
    | none => (st, .error .validationError)
    | some cost =>
      if st.balance < (cost : Int) then (st, .error .insufficientCredits)
      else
        ({ balance := st.balance - (cost : Int)
           tasks := st.tasks ++ [submitNewTask newId idea depth now]
           queue := st.queue ++ [newId] }, .ok newId)

/-- Modelled from the spec: Orchestrator `Rerun(taskId)` (§4.1) — absent from
the repository sources. Only legal when the referenced task is terminal;
reads idea/depth from the old task and performs a fresh `Submit`; the old task
record is left intact. -/
def RerunM (st : BackendState) (taskId newId now : String) :
    BackendState × Except ApiError String :=
  match st.tasks.find? (fun t => t.request_id == taskId) with
  | none => (st, .error .notFound)
  | some old =>
    if isTerminalStatus old.status then
      SubmitM st old.product_idea old.research_depth newId now
    else (st, .error .invalidState)

/-- Modelled from the spec: Orchestrator `Delete(taskId)` (§4.1) — absent from
the repository sources. Only legal on terminal tasks; removes the task-store
record and does not touch the ledger. -/
def DeleteM (st : BackendState) (taskId : String) :
    BackendState × Except ApiError Unit :=
  match st.tasks.find? (fun t => t.request_id == taskId) with
  | none => (st, .error .notFound)
  | some old =>
    if isTerminalStatus old.status then
      ({ st with tasks := st.tasks.filter (fun t => !(t.request_id == taskId)) }, .ok ())
    else (st, .error .invalidState)

/-- Modelled from the spec: Ledger `GetRemaining` (§4.3) — absent from the
repository sources. For a depth tier of the given cost, the number of searches
remaining is `floor(current_balance / tier_cost)`. -/
def getRemaining (balance : Nat) (cost : Nat) : Nat := balance / cost

/-! ## Checkpoint sequence and progress

The 17-checkpoint structure is documented in TECHNICAL_DOCUMENTATION
(Checkpoint Categories) and mirrored in the frontend progress messages of
ActiveResearchProgress; the progress formula and the Redis-backed tracker are
modelled from the spec (§3, §4.2). -/

/-- The checkpoint phases with their checkpoint counts, from the Checkpoint
Categories list in TECHNICAL_DOCUMENTATION: Initialization (1),
Query Generation (1), Market Research (4), Competitor Research (4),
Customer Research (4), Report Generation (2), Final Delivery (1). -/
def checkpointPhases : List (String × Nat) :=
  [("initialization", 1), ("query generation", 1), ("market research", 4),
   ("competitor research", 4), ("customer research", 4),
   ("report generation", 2), ("completion", 1)]

def TOTAL_CHECKPOINTS : Nat := (checkpointPhases.map (·.2)).sum

/-- `getProgressMessage` from the ActiveResearchProgress component: the
human-readable message for each completed-checkpoint count `0..17`, with a
generic fallback for any other count. -/
def getProgressMessage (checkpointCount : Nat) : String :=
  match checkpointCount with
  | 0 => "🚀 Starting research..."
  | 1 => "🎯 Crafting your research strategy..."
  | 2 => "🔍 Generating targeted search queries..."
  | 3 => "📊 Analyzing market trends and opportunities..."
  | 4 => "📈 Gathering market intelligence..."
  | 5 => "💡 Extracting key market insights..."
  | 6 => "📋 Synthesizing market insights..."
  | 7 => "🏢 Researching competitive landscape..."
  | 8 => "⚔️ Analyzing competitor strategies..."
  | 9 => "🎯 Identifying competitive gaps..."
  | 10 => "⚖️ Evaluating competitive positioning..."
  | 11 => "👥 Understanding customer needs..."
  | 12 => "💬 Analyzing customer feedback..."
  | 13 => "🎭 Building customer personas..."
  | 14 => "🧠 Processing customer intelligence..."
  | 15 => "📝 Generating comprehensive report..."
  | 16 => "✨ Finalizing research findings..."
  | 17 => "🎉 Research complete!"
  | _ => "🔬 Conducting deep market research..."

/-- Modelled from the spec: the progress formula of §3 — the checkpoint
tracker computing it is absent from the repository sources.
`round(100 * c / 17)` clamped to `[0, 100]`, in integer arithmetic:
`⌊(200 c + 17) / 34⌋` is the half-up rounding of `100 c / 17`. -/
def progressOf (completedCheckpoints : Nat) : Nat :=
  min 100 ((200 * completedCheckpoints + 17) / 34)

/-- Modelled from the spec: the progress reported for a task (§3, §8) —
a task whose status has transitioned to `completed` reports exactly 100
regardless of the last checkpoint count recorded. -/
def reportedProgress (status : String) (completedCheckpoints : Nat) : Nat :=
  if status == "completed" then 100 else progressOf completedCheckpoints

/-! ## Checkpoint tracker (spec §4.2, §8) -/

/-- Tracker entry for one task: the count of completed checkpoints recorded so
far (0 initially) and the audit list of accepted advance indices. -/
structure TrackerEntry where
  completed_checkpoints : Nat
  recorded : List Nat
deriving DecidableEq, Repr

def TrackerEntry.init : TrackerEntry := ⟨0, []⟩

/-- Modelled from the spec: Checkpoint Tracker `Advance(taskId, checkpointIndex)`
(§4.2, with the acceptance rule pinned down by the §8 worked example
`[1,2,2,4,3,5] ↦ [1,2,4,5]`) — absent from the repository sources. An index is
accepted only when it strictly exceeds the last recorded count; duplicate or
out-of-order indices are no-ops. -/
def Advance (e : TrackerEntry) (i : Nat) : TrackerEntry :=
  if e.completed_checkpoints < i then
    { completed_checkpoints := i, recorded := e.recorded ++ [i] }
  else e

def runAdvances (e : TrackerEntry) (is : List Nat) : TrackerEntry :=
  is.foldl Advance e

/-! ## Relational schema (src/backend/database_schema.sql) -/

/-- One row of the `credit_balances` table, with the columns declared in
database_schema.sql (UUIDs embedded as `Nat`, timestamps omitted — no
constraint of interest mentions them). -/
structure CreditBalanceRow where
  id : Nat
  user_id : String
  month_year : String
  current_balance : Int
  monthly_limit : Int
  total_used_this_month : Int
  total_researches_this_month : Int
  version : Nat
deriving DecidableEq, Repr

/-- The constraints database_schema.sql declares on `credit_balances`:
`id` is the PRIMARY KEY (hence unique); all columns are NOT NULL (enforced by
the field types). `idx_credit_balance_user_month` is created with plain
`CREATE INDEX`, not `CREATE UNIQUE INDEX`, so it imposes no constraint. -/
def creditBalancesSchemaValid (rows : List CreditBalanceRow) : Prop :=
  (rows.map (·.id)).Nodup

instance (rows : List CreditBalanceRow) : Decidable (creditBalancesSchemaValid rows) :=
  inferInstanceAs (Decidable ((rows.map CreditBalanceRow.id).Nodup))

/-- The (user, month) key pairs of a table state. -/
def balanceKeys (rows : List CreditBalanceRow) : List (String × String) :=
  rows.map (fun r => (r.user_id, r.month_year))

/-- At most one row per (user, month): the key pairs are pairwise distinct. -/
def uniquePerUserMonth (rows : List CreditBalanceRow) : Prop :=
  (balanceKeys rows).Nodup

instance (rows : List CreditBalanceRow) : Decidable (uniquePerUserMonth rows) :=
  inferInstanceAs (Decidable ((balanceKeys rows).Nodup))

/-! ## Sequential ledger operations over the balance table (spec §4.3) -/

inductive LedgerOpKind where
  | debit
  | credit
deriving DecidableEq, Repr

/-- One ledger operation request: kind, user, month key, amount (positive). -/
structure LedgerRequest where
  kind : LedgerOpKind
  user : String
  month : String
  amount : Nat
deriving DecidableEq, Repr

/-- Modelled from the spec: the in-place mutation a ledger operation performs
on its balance row (§4.3) — debit decrements the balance and bumps the usage
counters when covered (a debit with insufficient balance changes nothing),
credit increments the balance; every successful mutation increments
`version`. -/
def mutateRow (req : LedgerRequest) (r : CreditBalanceRow) : CreditBalanceRow :=
  match req.kind with
  | .debit =>
    if (req.amount : Int) ≤ r.current_balance then
      { r with current_balance := r.current_balance - (req.amount : Int)
               total_used_this_month := r.total_used_this_month + (req.amount : Int)
               total_researches_this_month := r.total_researches_this_month + 1
               version := r.version + 1 }
    else r
  | .credit =>
    { r with current_balance := r.current_balance + (req.amount : Int)
             version := r.version + 1 }

/-- The lazily created row for a (user, month) with no row yet:
`current_balance = monthly_limit`, zero usage, version 1 (§3 lifecycle,
schema defaults). -/
def freshRow (monthlyLimit : Int) (nextId : Nat) (req : LedgerRequest) :
    CreditBalanceRow :=
  { id := nextId, user_id := req.user, month_year := req.month
    current_balance := monthlyLimit, monthly_limit := monthlyLimit
    total_used_this_month := 0, total_researches_this_month := 0
    version := 1 }

/-- Modelled from the spec: applying one ledger operation to the balance table
(§3 lifecycle, §4.3) — the credit service is absent from the repository
sources. The row for (user, month) is created lazily when absent; an existing
row is mutated in place, never duplicated. -/
def applyLedgerRequest (monthlyLimit : Int) (rows : List CreditBalanceRow)
    (nextId : Nat) (req : LedgerRequest) : List CreditBalanceRow × Nat :=
  match rows.find? (fun r => r.user_id == req.user && r.month_year == req.month) with
  | none => (rows ++ [mutateRow req (freshRow monthlyLimit nextId req)], nextId + 1)
  | some _ =>
    (rows.map (fun r =>
      if r.user_id == req.user && r.month_year == req.month then mutateRow req r
      else r), nextId)

/-- A sequence of ledger operations applied in order. -/
def runLedgerRequests (monthlyLimit : Int) (st : List CreditBalanceRow × Nat)
    (reqs : List LedgerRequest) : List CreditBalanceRow × Nat :=
  reqs.foldl (fun st req => applyLedgerRequest monthlyLimit st.1 st.2 req) st

/-! ## Concurrent ledger mutations with compare-and-swap (spec §4.3, §5, §8)

Modelled from the spec: the credit service performing the optimistic-locking
read-modify-write cycle is absent from the repository sources; the `version`
column it swaps on is declared in database_schema.sql. Each in-flight Debit or
Credit against one (user, month) row first reads a snapshot of
(`current_balance`, `version`), computes the new balance from its snapshot, and
then attempts a conditional write guarded by `version` still equalling the
snapshot version. Interleavings are arbitrary sequences of read and CAS-attempt
events. -/

/-- The snapshot an in-flight operation read: balance and version at read time. -/
structure Snapshot where
  bal : Int
  ver : Nat
deriving DecidableEq, Repr

/-- One in-flight ledger mutation: its kind, its (positive) amount, the
snapshot from its latest read (none before the first read), and whether its
conditional write has succeeded. -/
structure CasOp where
  kind : LedgerOpKind
  amount : Nat
  snap : Option Snapshot
  committed : Bool
deriving DecidableEq, Repr

/-- The signed balance delta of an operation: debits subtract, credits add. -/
def CasOp.delta (op : CasOp) : Int :=
  match op.kind with
  | .debit => -(op.amount : Int)
  | .credit => (op.amount : Int)

/-- The shared (user, month) balance row plus the set of in-flight operations. -/
structure CasState where
  monthly_limit : Int
  current_balance : Int
  version : Nat
  ops : List CasOp
deriving DecidableEq, Repr

/-- The initial state: the row was lazily created with
`current_balance = monthly_limit` and `version = 1` (schema default); no
operation has read or committed yet. -/
def CasState.init (limit : Int) (ops : List CasOp) : CasState :=
  { monthly_limit := limit, current_balance := limit, version := 1, ops := ops }

/-- One scheduling event: operation `i` reads the row, or operation `i`
attempts its conditional write. -/
inductive CasEvent where
  | read (i : Nat)
  | casAttempt (i : Nat)
deriving DecidableEq, Repr

/-- Operation `i` reads the row: it stores the current balance and version as
its snapshot. Reading an unknown or already-committed operation changes
nothing. -/
def readStep (st : CasState) (i : Nat) : CasState :=
  match st.ops.get? i with
  | none => st
  | some op =>
    if op.committed then st
    else
      { st with ops := st.ops.set i { op with snap := some ⟨st.current_balance, st.version⟩ } }

/-- Operation `i` attempts its conditional write: it succeeds only when it has
a snapshot, it has not already committed, the row's `version` still equals the
snapshot version (the compare-and-swap), and — for a debit — the snapshot
balance covers the amount. On success the balance is set to the value computed
from the snapshot and `version` is incremented; otherwise nothing changes and
the operation must re-read before retrying. -/
def casStep (st : CasState) (i : Nat) : CasState :=
  match st.ops.get? i with
  | none => st
  | some op =>
    if op.committed then st
    else
      match op.snap with
      | none => st
      | some s =>
        if s.ver = st.version ∧ (op.kind = .debit → (op.amount : Int) ≤ s.bal) then
          { st with current_balance := s.bal + op.delta
                    version := st.version + 1
                    ops := st.ops.set i { op with committed := true } }
        else st

def casEventStep (st : CasState) : CasEvent → CasState
  | .read i => readStep st i
  | .casAttempt i => casStep st i

def runCas (st : CasState) (events : List CasEvent) : CasState :=
  events.foldl casEventStep st

/-- Sum of the amounts of the successful (committed) debits. -/
def sumDebits (ops : List CasOp) : Int :=
  ((ops.filter (fun o => o.committed && o.kind == .debit)).map
    (fun o => (o.amount : Int))).sum

/-- Sum of the amounts of the successful (committed) credits. -/
def sumCredits (ops : List CasOp) : Int :=
  ((ops.filter (fun o => o.committed && o.kind == .credit)).map
    (fun o => (o.amount : Int))).sum

/-- Number of committed operations. -/
def committedCount (ops : List CasOp) : Nat :=
  (ops.filter (fun o => o.committed)).length

/-- The contribution of one operation to the row balance: its signed delta if
it has committed, zero otherwise. -/
def opContrib (o : CasOp) : Int :=
  if o.committed then o.delta else 0

def committedDelta (ops : List CasOp) : Int :=
  (ops.map opContrib).sum

/-- The contribution of one operation to the version counter. -/
def opCount (o : CasOp) : Int :=
  if o.committed then 1 else 0

def committedCountZ (ops : List CasOp) : Int :=
  (ops.map opCount).sum

/-- The no-lost-update invariant of the CAS model: the balance is the limit
plus the committed deltas, the version counts the commits, and any snapshot
carrying the current version was taken at the current balance. -/
def CasInv (st : CasState) : Prop :=
  st.current_balance = st.monthly_limit + committedDelta st.ops ∧
  (st.version : Int) = 1 + committedCountZ st.ops ∧
  ∀ op ∈ st.ops, ∀ s, op.snap = some s →
    s.ver ≤ st.version ∧ (s.ver = st.version → s.bal = st.current_balance)

/-! ## Helper lemmas -/

theorem creditCost_isSome_iff (d : String) :
    (creditCost d).isSome = true ↔ d ∈ RESEARCH_DEPTHS := by
  constructor
  · intro h
    unfold creditCost at h
    split at h <;> simp_all [RESEARCH_DEPTHS]
  · intro h
    simp only [RESEARCH_DEPTHS, List.mem_cons, List.not_mem_nil, or_false] at h
    rcases h with h | h | h <;> subst h <;> rfl

theorem SubmitM_insufficient (st : BackendState) (idea depth newId now : String)
    (cost : Nat) (hc : creditCost depth = some cost) (hi : jsTrim idea ≠ "")
    (hb : st.balance < (cost : Int)) :
    SubmitM st idea depth newId now = (st, .error .insufficientCredits) := by
  unfold SubmitM
  rw [hc]
  simp [hi, hb]

theorem SubmitM_success (st : BackendState) (idea depth newId now : String)
    (cost : Nat) (hc : creditCost depth = some cost) (hi : jsTrim idea ≠ "")
    (hb : (cost : Int) ≤ st.balance) :
    SubmitM st idea depth newId now =
      ({ balance := st.balance - (cost : Int)
         tasks := st.tasks ++ [submitNewTask newId idea depth now]
         queue := st.queue ++ [newId] }, .ok newId) := by
  unfold SubmitM
  rw [hc]
  simp [hi, not_lt.mpr hb]

/-! ## Claim theorems -/

/-- C10 counterexample: the claim asserts every input other than the three
tiers returns the standard configuration, but `configs["toString"]` finds the
inherited `Object.prototype.toString` — a truthy value — which `||` returns
instead of `configs.standard`. -/
theorem getResearchConfig_proto_counterexample :
    getResearchConfig (some "toString") = .protoMember "toString" ∧
    getResearchConfig (some "toString") ≠ .config standardConfig := by
  decide

/-- C10 amended: `getResearchConfig` is total on arbitrary depth inputs: each
of `basic`, `standard`, `comprehensive` returns that tier's distinct
label/description/color configuration; `undefined` (embedded as `none`) and
every unknown string that does not name an `Object.prototype` member return
the standard tier's configuration rather than failing; but a string naming an
inherited `Object.prototype` member (`toString`, `constructor`, `valueOf`,
`hasOwnProperty`, `__proto__`, …) makes the bracket lookup yield that truthy
inherited value, which is returned instead of the standard configuration. -/
theorem getResearchConfig_total_with_standard_fallback :
    (getResearchConfig (some "basic") = .config basicConfig ∧
     getResearchConfig (some "standard") = .config standardConfig ∧
     getResearchConfig (some "comprehensive") = .config comprehensiveConfig) ∧
    (basicConfig ≠ standardConfig ∧ basicConfig ≠ comprehensiveConfig ∧
     standardConfig ≠ comprehensiveConfig) ∧
    getResearchConfig none = .config standardConfig ∧
    (∀ d : String, d ≠ "basic" → d ≠ "standard" → d ≠ "comprehensive" →
      d ∉ objectPrototypeMembers →
      getResearchConfig (some d) = .config standardConfig) ∧
    (∀ d ∈ objectPrototypeMembers,
      getResearchConfig (some d) = .protoMember d) := by
  refine ⟨⟨rfl, rfl, rfl⟩, by decide, rfl, ?_, ?_⟩
  · intro d h1 h2 h3 hmem
    unfold getResearchConfig
    split <;> simp_all
  · intro d hd
    simp only [objectPrototypeMembers, List.mem_cons, List.not_mem_nil, or_false] at hd
    rcases hd with h | h | h | h | h | h | h | h | h | h | h | h <;> subst h <;> rfl

/-- Witness for C10 (amended): the fallback branch evaluated at the unknown
depth string `"expert"`, which names no `Object.prototype` member. -/
theorem getResearchConfig_total_with_standard_fallback_witness :
    getResearchConfig (some "expert") = .config standardConfig :=
  getResearchConfig_total_with_standard_fallback.2.2.2.1 "expert"
    (by decide) (by decide) (by decide) (by decide)

/-- C9: Submit accepts exactly the depth values `basic`, `standard` and
`comprehensive` together with a non-empty product idea — any other input is a
`ValidationError` — and the charged cost is the fixed function of depth:
basic 6, standard 12, comprehensive 18 credits. -/
theorem submit_depths_and_fixed_costs :
    (creditCost "basic" = some 6 ∧ creditCost "standard" = some 12 ∧
     creditCost "comprehensive" = some 18) ∧
    (∀ d : String, (creditCost d).isSome = true ↔ d ∈ RESEARCH_DEPTHS) ∧
    (∀ (st : BackendState) (idea d newId now : String),
      (SubmitM st idea d newId now).2 = .error .validationError ↔
        (jsTrim idea = "" ∨ d ∉ RESEARCH_DEPTHS)) ∧
    (∀ (st : BackendState) (idea d newId now : String) (cost : Nat),
      creditCost d = some cost → jsTrim idea ≠ "" → (cost : Int) ≤ st.balance →
      (SubmitM st idea d newId now).1.balance = st.balance - (cost : Int)) := by
  refine ⟨⟨rfl, rfl, rfl⟩, creditCost_isSome_iff, ?_, ?_⟩
  · intro st idea d newId now
    by_cases hi : jsTrim idea = ""
    · simp [SubmitM, hi]
    · rcases hcd : creditCost d with _ | cost
      · have hd : d ∉ RESEARCH_DEPTHS := by
          intro hmem
          have := (creditCost_isSome_iff d).mpr hmem
          rw [hcd] at this
          simp at this
        simp only [SubmitM, hcd]
        simp [hi, hd]
      · have hd : d ∈ RESEARCH_DEPTHS := by
          apply (creditCost_isSome_iff d).mp
          rw [hcd]; rfl
        simp only [SubmitM, hcd]
        by_cases hb : st.balance < (cost : Int) <;> simp [hi, hb, hd]
  · intro st idea d newId now cost hc hi hb
    rw [SubmitM_success st idea d newId now cost hc hi hb]

/-- Witness for C9: the charged cost evaluated for a `standard` submission
from balance 12 — exactly 12 credits are debited. -/
theorem submit_depths_and_fixed_costs_witness :
    (SubmitM ⟨12, [], []⟩ "chess tutor app" "standard" "t1" "now").1.balance = 12 - (12 : Int) :=
  submit_depths_and_fixed_costs.2.2.2 ⟨12, [], []⟩ "chess tutor app"
    "standard" "t1" "now" 12 rfl (by decide) (by decide)

/-- C5: a Submit whose depth cost exceeds the current balance fails with
`InsufficientCredits` and performs no write — the returned state is the input
state, so the balance is unchanged, no task record exists afterwards that did
not exist before, and nothing is enqueued. In the interface, a user whose
remaining-searches count for the selected depth is 0 (which `GetRemaining`
yields whenever balance < cost) cannot submit at all. -/
theorem insufficient_credits_fails_fast (st : BackendState)
    (idea depth newId now : String) (cost : Nat)
    (hc : creditCost depth = some cost) (hi : jsTrim idea ≠ "")
    (hb : st.balance < (cost : Int)) :
    SubmitM st idea depth newId now = (st, .error .insufficientCredits) ∧
    (SubmitM st idea depth newId now).1.balance = st.balance ∧
    (SubmitM st idea depth newId now).1.tasks = st.tasks ∧
    (SubmitM st idea depth newId now).1.queue = st.queue ∧
    (∀ balance : Nat, (balance : Int) < (cost : Int) → getRemaining balance cost = 0) ∧
    (∀ sr : String → Nat, sr depth = 0 →
      hasCreditsForSelectedDepth (some sr) false depth = false) := by
  have h := SubmitM_insufficient st idea depth newId now cost hc hi hb
  refine ⟨h, by rw [h], by rw [h], by rw [h], ?_, ?_⟩
  · intro balance hlt
    exact Nat.div_eq_of_lt (by exact_mod_cast hlt)
  · intro sr hsr
    simp [hasCreditsForSelectedDepth, hsr]

/-- Witness for C5: balance 10 submitting `standard` (cost 12) leaves the
state untouched and reports `InsufficientCredits`; `GetRemaining` shows 0
standard searches, so the form's submit gate is closed. -/
theorem insufficient_credits_fails_fast_witness :
    SubmitM ⟨10, [], []⟩ "meal planning app" "standard" "t1" "now"
      = (⟨10, [], []⟩, .error .insufficientCredits) :=
  (insufficient_credits_fails_fast ⟨10, [], []⟩ "meal planning app" "standard"
    "t1" "now" 12 rfl (by decide) (by decide)).1

/-- C7: a successful Submit returns the new task's request id; the created
task starts with status `processing` and progress `0` — not any terminal
status — and the execution job is enqueued. The frontend builds the matching
task object with the same status and progress. -/
theorem submit_success_creates_processing_task (st : BackendState)
    (idea depth newId now : String) (cost : Nat)
    (hc : creditCost depth = some cost) (hi : jsTrim idea ≠ "")
    (hb : (cost : Int) ≤ st.balance) :
    (SubmitM st idea depth newId now).2 = .ok newId ∧
    (SubmitM st idea depth newId now).1.tasks
      = st.tasks ++ [submitNewTask newId idea depth now] ∧
    (submitNewTask newId idea depth now).request_id = newId ∧
    (submitNewTask newId idea depth now).status = "processing" ∧
    (submitNewTask newId idea depth now).progress = 0 ∧
    isTerminalStatus (submitNewTask newId idea depth now).status = false ∧
    newId ∈ (SubmitM st idea depth newId now).1.queue := by
  have h := SubmitM_success st idea depth newId now cost hc hi hb
  refine ⟨by rw [h], by rw [h], rfl, rfl, rfl, by rfl, ?_⟩
  rw [h]
  simp

/-- Witness for C7: balance 12 submitting `standard` creates the processing
task `t1` with progress 0 and enqueues its job. -/
theorem submit_success_creates_processing_task_witness :
    (SubmitM ⟨12, [], []⟩ "meal planning app" "standard" "t1" "now").2 = .ok "t1" ∧
    (SubmitM ⟨12, [], []⟩ "meal planning app" "standard" "t1" "now").1.tasks
      = [] ++ [submitNewTask "t1" "meal planning app" "standard" "now"] :=
  let h := submit_success_creates_processing_task ⟨12, [], []⟩ "meal planning app"
    "standard" "t1" "now" 12 rfl (by decide) (by decide)
  ⟨h.1, h.2.1⟩

/-- C6: Rerun on a terminal task performs a fresh Submit: it returns a new
task id, appends a fresh task record (status `processing`, progress 0) to the
store, and never mutates the source task — the source record is still present,
field for field (status, progress, timestamps). In the frontend, `rerunTask`
removes the old task from the active view only (tasks surviving the view
update are exactly original list members, unmodified), and the replacement
view entry starts as `pending`. -/
theorem rerun_creates_fresh_task_preserves_source (st : BackendState)
    (taskId newId now : String) (old : Task) (cost : Nat)
    (hfind : st.tasks.find? (fun t => t.request_id == taskId) = some old)
    (hterm : isTerminalStatus old.status = true)
    (hc : creditCost old.research_depth = some cost)
    (hi : jsTrim old.product_idea ≠ "")
    (hb : (cost : Int) ≤ st.balance)
    (hnew : newId ≠ taskId) :
    (RerunM st taskId newId now).2 = .ok newId ∧
    (RerunM st taskId newId now).1.tasks
      = st.tasks ++ [submitNewTask newId old.product_idea old.research_depth now] ∧
    old ∈ (RerunM st taskId newId now).1.tasks ∧
    (submitNewTask newId old.product_idea old.research_depth now).request_id = newId ∧
    newId ≠ taskId ∧
    (submitNewTask newId old.product_idea old.research_depth now).status = "processing" ∧
    (∀ (p d : String), (rerunNewTask newId p d now).status = "pending") ∧
    (∀ (view : List Task) (nt t : Task),
      t ∈ rerunTaskListUpdate taskId nt view → t = nt ∨ t ∈ view) ∧
    (∀ view : List Task, old ∉ removeTask taskId view) := by
  have hmem := List.mem_of_find?_eq_some hfind
  have hid : old.request_id = taskId := by
    have := List.find?_some hfind
    exact eq_of_beq this
  have hs := SubmitM_success st old.product_idea old.research_depth newId now cost hc hi hb
  have hR : RerunM st taskId newId now
      = ({ balance := st.balance - (cost : Int)
           tasks := st.tasks ++ [submitNewTask newId old.product_idea old.research_depth now]
           queue := st.queue ++ [newId] }, .ok newId) := by
    unfold RerunM
    rw [hfind]
    simp [hterm, hs]
  refine ⟨by rw [hR], by rw [hR], ?_, rfl, hnew, rfl, fun p d => rfl, ?_, ?_⟩
  · rw [hR]
    exact List.mem_append_left _ hmem
  · intro view nt t ht
    simp only [rerunTaskListUpdate, addTask, removeTask] at ht
    rcases List.mem_cons.mp ht with h | h
    · exact Or.inl h
    · exact Or.inr (List.mem_of_mem_filter h)
  · intro view hin
    have := (List.mem_filter.mp hin).2
    simp [hid] at this

/-- Witness for C6: rerunning the completed task `a` with fresh id `b` leaves
the record of `a` in the store and appends the fresh processing task. -/
theorem rerun_creates_fresh_task_preserves_source_witness :
    (RerunM ⟨12, [⟨"a", "idea", "standard", "completed", "t0", 100, "done"⟩], []⟩
        "a" "b" "now").2 = .ok "b" ∧
    (⟨"a", "idea", "standard", "completed", "t0", 100, "done"⟩ : Task)
      ∈ (RerunM ⟨12, [⟨"a", "idea", "standard", "completed", "t0", 100, "done"⟩], []⟩
          "a" "b" "now").1.tasks :=
  let h := rerun_creates_fresh_task_preserves_source
    ⟨12, [⟨"a", "idea", "standard", "completed", "t0", 100, "done"⟩], []⟩
    "a" "b" "now" ⟨"a", "idea", "standard", "completed", "t0", 100, "done"⟩ 12
    (by decide) (by decide) rfl (by decide) (by decide) (by decide)
  ⟨h.1, h.2.2.1⟩

/-- C8 counterexample: the claim asserts the interface offers rerun/delete
only for terminal tasks, but ResearchTaskCard renders the rerun and delete
buttons for a `pending` task — `pending` is not terminal, only `processing`
tasks are excluded. -/
theorem rerun_delete_ui_counterexample :
    (researchTaskCardButtons "pending" false).showRerun = true ∧
    (researchTaskCardButtons "pending" false).showDelete = true ∧
    isTerminalStatus "pending" = false := by
  decide

/-- C8 amended: the backend (modelled from the spec) rejects Rerun and Delete
on any non-terminal task with `InvalidState` and changes nothing; the
interface, however, offers rerun/delete for every task that is not in
`processing` status — including `pending` ones — and offers abort exactly for
`processing` tasks. -/
theorem rerun_delete_terminal_only_backend :
    (∀ (st : BackendState) (taskId newId now : String) (old : Task),
      st.tasks.find? (fun t => t.request_id == taskId) = some old →
      isTerminalStatus old.status = false →
      RerunM st taskId newId now = (st, .error .invalidState)) ∧
    (∀ (st : BackendState) (taskId : String) (old : Task),
      st.tasks.find? (fun t => t.request_id == taskId) = some old →
      isTerminalStatus old.status = false →
      DeleteM st taskId = (st, .error .invalidState)) ∧
    (∀ status : String,
      (researchTaskCardButtons status false).showAbort = (status == "processing") ∧
      (researchTaskCardButtons status false).showRerun = !(status == "processing") ∧
      (researchTaskCardButtons status false).showDelete = !(status == "processing")) := by
  refine ⟨?_, ?_, ?_⟩
  · intro st taskId newId now old hfind hterm
    unfold RerunM
    rw [hfind]
    simp [hterm]
  · intro st taskId old hfind hterm
    unfold DeleteM
    rw [hfind]
    simp [hterm]
  · intro status
    exact ⟨rfl, rfl, rfl⟩

theorem progressOf_mono {a b : Nat} (h : a ≤ b) : progressOf a ≤ progressOf b := by
  unfold progressOf
  exact min_le_min (le_refl 100) (Nat.div_le_div_right (by omega))

/-- C4: checkpoint advances apply only in strictly increasing index order;
duplicate or out-of-order indices are no-ops that never decrease progress.
Feeding `[1,2,2,4,3,5]` records exactly the advances `[1,2,4,5]` — the
duplicate 2 and the stale 3 after 4 are dropped. -/
theorem checkpoint_advance_strictly_increasing :
    (runAdvances TrackerEntry.init [1, 2, 2, 4, 3, 5]).recorded = [1, 2, 4, 5] ∧
    (∀ (e : TrackerEntry) (i : Nat), i ≤ e.completed_checkpoints → Advance e i = e) ∧
    (∀ (e : TrackerEntry) (i : Nat),
      e.completed_checkpoints ≤ (Advance e i).completed_checkpoints ∧
      progressOf e.completed_checkpoints
        ≤ progressOf (Advance e i).completed_checkpoints) := by
  refine ⟨by decide, ?_, ?_⟩
  · intro e i h
    unfold Advance
    rw [if_neg (not_lt.mpr h)]
  · intro e i
    have hle : e.completed_checkpoints ≤ (Advance e i).completed_checkpoints := by
      by_cases h : e.completed_checkpoints < i
      · simp only [Advance, if_pos h]
        exact le_of_lt h
      · simp only [Advance, if_neg h]
        exact le_refl _
    exact ⟨hle, progressOf_mono hle⟩

/-- Witness for C4: advancing with the stale index 3 after 4 has been
recorded is a no-op. -/
theorem checkpoint_advance_strictly_increasing_witness :
    Advance ⟨4, [1, 2, 4]⟩ 3 = ⟨4, [1, 2, 4]⟩ :=
  checkpoint_advance_strictly_increasing.2.1 ⟨4, [1, 2, 4]⟩ 3 (by decide)

/-- C2: the checkpoint sequence is 17 milestones grouped as
initialization(1), query generation(1), market research(4),
competitor research(4), customer research(4), report generation(2),
completion(1); for every count `c ≤ 17` of completed checkpoints the reported
progress equals `round(100 * c / 17)` clamped to `[0, 100]` (being a `Nat`,
it is never below 0, and it never exceeds 100 for any count); the terminal
checkpoint yields exactly 100; the transition to status `completed` forces
progress to exactly 100 even when the 17th checkpoint event was dropped; and
the stream 1..17 yields the progress sequence 6, 12, 18, …, 100. -/
theorem checkpoint_progress_formula :
    TOTAL_CHECKPOINTS = 17 ∧
    checkpointPhases.map Prod.snd = [1, 1, 4, 4, 4, 2, 1] ∧
    (∀ c : Nat, c ≤ 17 → (progressOf c : ℤ) = min 100 (round ((100 * c : ℚ) / 17))) ∧
    (∀ c : Nat, progressOf c ≤ 100) ∧
    progressOf 17 = 100 ∧
    (∀ c : Nat, reportedProgress "completed" c = 100) ∧
    (List.range 17).map (fun k => progressOf (k + 1))
      = [6, 12, 18, 24, 29, 35, 41, 47, 53, 59, 65, 71, 76, 82, 88, 94, 100] ∧
    getProgressMessage 17 = "🎉 Research complete!" := by
  refine ⟨rfl, rfl, ?_, ?_, rfl, fun c => rfl, by decide, rfl⟩
  · intro c hc
    interval_cases c <;> norm_num [progressOf, round_eq]
  · intro c
    exact min_le_left _ _

/-- Witness for C2: one completed checkpoint reports
`round(100/17) = 6` percent. -/
theorem checkpoint_progress_formula_witness :
    (progressOf 1 : ℤ) = min 100 (round ((100 * (1 : Nat) : ℚ) / 17)) :=
  checkpoint_progress_formula.2.2.1 1 (by decide)

theorem mutateRow_user_id (req : LedgerRequest) (r : CreditBalanceRow) :
    (mutateRow req r).user_id = r.user_id := by
  unfold mutateRow
  split <;> (try split) <;> rfl

theorem mutateRow_month_year (req : LedgerRequest) (r : CreditBalanceRow) :
    (mutateRow req r).month_year = r.month_year := by
  unfold mutateRow
  split <;> (try split) <;> rfl

theorem applyLedgerRequest_preserves_unique (monthlyLimit : Int)
    (rows : List CreditBalanceRow) (nextId : Nat) (req : LedgerRequest)
    (h : uniquePerUserMonth rows) :
    uniquePerUserMonth (applyLedgerRequest monthlyLimit rows nextId req).1 := by
  unfold applyLedgerRequest
  cases hfind : rows.find? (fun r => r.user_id == req.user && r.month_year == req.month) with
  | none =>
    have hnotin : (req.user, req.month) ∉ balanceKeys rows := by
      intro hmem
      rcases List.mem_map.mp hmem with ⟨r, hr, hkey⟩
      have hp := List.find?_eq_none.mp hfind r hr
      have h1 : r.user_id = req.user := congrArg Prod.fst hkey
      have h2 : r.month_year = req.month := congrArg Prod.snd hkey
      simp [h1, h2] at hp
    have hkeys : balanceKeys (rows ++ [mutateRow req (freshRow monthlyLimit nextId req)])
        = balanceKeys rows ++ [(req.user, req.month)] := by
      unfold balanceKeys
      rw [List.map_append]
      simp [mutateRow_user_id, mutateRow_month_year, freshRow]
    unfold uniquePerUserMonth
    rw [hkeys]
    unfold uniquePerUserMonth at h
    simp [List.nodup_append, h, hnotin]
  | some r₀ =>
    have hkeys : balanceKeys
        (rows.map (fun r =>
          if r.user_id == req.user && r.month_year == req.month then mutateRow req r
          else r))
        = balanceKeys rows := by
      unfold balanceKeys
      rw [List.map_map]
      apply List.map_congr_left
      intro r _
      by_cases hmatch : r.user_id == req.user && r.month_year == req.month
      · simp only [Function.comp_apply, if_pos hmatch,
          mutateRow_user_id, mutateRow_month_year]
      · simp only [Function.comp_apply, if_neg hmatch]
    unfold uniquePerUserMonth
    rw [hkeys]
    exact h

/-- C3 counterexample: the claim asserts at most one `credit_balances` row can
exist per (user, month), but the schema declares no uniqueness for the pair —
`idx_credit_balance_user_month` is created with plain `CREATE INDEX`, not
`CREATE UNIQUE INDEX` — so a table state holding two rows for
(`default`, `2024-10`) satisfies every constraint database_schema.sql
declares. -/
theorem duplicate_user_month_rows_schema_valid :
    creditBalancesSchemaValid
      [⟨1, "default", "2024-10", 1000, 1000, 0, 0, 1⟩,
       ⟨2, "default", "2024-10", 988, 1000, 12, 1, 2⟩] ∧
    ¬ uniquePerUserMonth
      [⟨1, "default", "2024-10", 1000, 1000, 0, 0, 1⟩,
       ⟨2, "default", "2024-10", 988, 1000, 12, 1, 2⟩] := by
  constructor
  · decide
  · intro h
    exact absurd h (by decide)

/-- C3 amended: the schema itself does not enforce per-(user, month)
uniqueness, but the ledger operations (modelled from the spec: lazy creation
only when no row for the pair exists, otherwise in-place mutation), applied
sequentially to a table whose (user, month) pairs are distinct, never create
a second row for the same pair. -/
theorem ledger_ops_preserve_unique_user_month (monthlyLimit : Int)
    (reqs : List LedgerRequest) :
    ∀ (rows : List CreditBalanceRow) (nextId : Nat), uniquePerUserMonth rows →
      uniquePerUserMonth (runLedgerRequests monthlyLimit (rows, nextId) reqs).1 := by
  induction reqs with
  | nil => intro rows nextId h; exact h
  | cons req rest ih =>
    intro rows nextId h
    have hstep := applyLedgerRequest_preserves_unique monthlyLimit rows nextId req h
    simpa [runLedgerRequests] using
      ih (applyLedgerRequest monthlyLimit rows nextId req).1
        (applyLedgerRequest monthlyLimit rows nextId req).2 hstep

/-- Witness for C3 (amended): two debits and a credit against the same
(user, month), starting from an empty table, leave a table whose (user, month)
pairs are still distinct — one row was lazily created, then mutated in
place. -/
theorem ledger_ops_preserve_unique_user_month_witness :
    uniquePerUserMonth
      (runLedgerRequests 1000 ([], 0)
        [⟨.debit, "default", "2024-10", 12⟩,
         ⟨.debit, "default", "2024-10", 6⟩,
         ⟨.credit, "default", "2024-10", 12⟩]).1 :=
  ledger_ops_preserve_unique_user_month 1000
    [⟨.debit, "default", "2024-10", 12⟩,
     ⟨.debit, "default", "2024-10", 6⟩,
     ⟨.credit, "default", "2024-10", 12⟩] [] 0 (by decide)

theorem sum_map_set (f : CasOp → Int) :
    ∀ (l : List CasOp) (i : Nat) (a b : CasOp), l.get? i = some a →
      ((l.set i b).map f).sum = (l.map f).sum - f a + f b := by
  intro l
  induction l with
  | nil => intro i a b h; simp at h
  | cons x t ih =>
    intro i a b h
    cases i with
    | zero =>
      simp only [List.get?_cons_zero, Option.some.injEq] at h
      subst h
      simp only [List.set, List.map_cons, List.sum_cons]
      ring
    | succ n =>
      simp only [List.get?_cons_succ] at h
      simp only [List.set, List.map_cons, List.sum_cons, ih n a b h]
      ring

theorem sumDebits_cons (o : CasOp) (t : List CasOp) :
    sumDebits (o :: t)
      = (if o.committed && o.kind == LedgerOpKind.debit then (o.amount : Int) else 0)
        + sumDebits t := by
  by_cases hp : (o.committed && o.kind == LedgerOpKind.debit) = true
  · simp [sumDebits, List.filter_cons, hp]
  · simp [sumDebits, List.filter_cons, hp]

theorem sumCredits_cons (o : CasOp) (t : List CasOp) :
    sumCredits (o :: t)
      = (if o.committed && o.kind == LedgerOpKind.credit then (o.amount : Int) else 0)
        + sumCredits t := by
  by_cases hp : (o.committed && o.kind == LedgerOpKind.credit) = true
  · simp [sumCredits, List.filter_cons, hp]
  · simp [sumCredits, List.filter_cons, hp]

theorem opContrib_eq (o : CasOp) :
    opContrib o
      = -(if o.committed && o.kind == LedgerOpKind.debit then (o.amount : Int) else 0)
        + (if o.committed && o.kind == LedgerOpKind.credit then (o.amount : Int) else 0) := by
  unfold opContrib CasOp.delta
  by_cases hcom : o.committed = true
  · cases hkind : o.kind
    · simp [hcom, hkind]
    · simp [hcom, hkind]
  · simp only [Bool.not_eq_true] at hcom
    simp [hcom]

theorem committedDelta_eq (ops : List CasOp) :
    committedDelta ops = -sumDebits ops + sumCredits ops := by
  induction ops with
  | nil => rfl
  | cons o t ih =>
    have hcd : committedDelta (o :: t) = opContrib o + committedDelta t := by
      simp [committedDelta]
    rw [hcd, sumDebits_cons, sumCredits_cons, opContrib_eq, ih]
    ring

theorem committedCount_cons (o : CasOp) (t : List CasOp) :
    (committedCount (o :: t) : Int)
      = (if o.committed then (1 : Int) else 0) + (committedCount t : Int) := by
  by_cases hcom : o.committed = true
  · simp only [committedCount, List.filter_cons, hcom, if_true, List.length_cons]
    push_cast
    ring
  · simp only [Bool.not_eq_true] at hcom
    simp [committedCount, List.filter_cons, hcom]

theorem committedCountZ_eq (ops : List CasOp) :
    committedCountZ ops = (committedCount ops : Int) := by
  induction ops with
  | nil => rfl
  | cons o t ih =>
    have hcz : committedCountZ (o :: t) = opCount o + committedCountZ t := by
      simp [committedCountZ]
    rw [hcz, committedCount_cons, ih]
    unfold opCount
    rfl

theorem committedDelta_uncommitted (ops : List CasOp)
    (h : ∀ o ∈ ops, o.committed = false) : committedDelta ops = 0 := by
  induction ops with
  | nil => rfl
  | cons o t ih =>
    have ho := h o (List.mem_cons_self o t)
    simp only [committedDelta, List.map_cons, List.sum_cons, opContrib, ho]
    simp only [Bool.false_eq_true, if_false, zero_add]
    exact ih (fun o' ho' => h o' (List.mem_cons_of_mem o ho'))

theorem committedCountZ_uncommitted (ops : List CasOp)
    (h : ∀ o ∈ ops, o.committed = false) : committedCountZ ops = 0 := by
  induction ops with
  | nil => rfl
  | cons o t ih =>
    have ho := h o (List.mem_cons_self o t)
    simp only [committedCountZ, List.map_cons, List.sum_cons, opCount, ho]
    simp only [Bool.false_eq_true, if_false, zero_add]
    exact ih (fun o' ho' => h o' (List.mem_cons_of_mem o ho'))

theorem readStep_inv (st : CasState) (i : Nat) (h : CasInv st) :
    CasInv (readStep st i) := by
  cases hget : st.ops.get? i with
  | none =>
    have hred : readStep st i = st := by simp only [readStep, hget]
    rw [hred]
    exact h
  | some op =>
    by_cases hcom : op.committed = true
    · have hred : readStep st i = st := by
        simp only [readStep, hget]
        rw [if_pos hcom]
      rw [hred]
      exact h
    · simp only [Bool.not_eq_true] at hcom
      have hred : readStep st i = { st with ops := st.ops.set i { op with
          snap := some ⟨st.current_balance, st.version⟩ } } := by
        simp only [readStep, hget]
        rw [if_neg (by simp [hcom])]
      rw [hred]
      obtain ⟨h1, h2, h3⟩ := h
      have hdelta : committedDelta (st.ops.set i
            { op with snap := some ⟨st.current_balance, st.version⟩ })
          = committedDelta st.ops := by
        unfold committedDelta
        rw [sum_map_set opContrib st.ops i op _ hget]
        have hc : opContrib { op with snap := some ⟨st.current_balance, st.version⟩ }
            = opContrib op := rfl
        rw [hc]
        ring
      have hcount : committedCountZ (st.ops.set i
            { op with snap := some ⟨st.current_balance, st.version⟩ })
          = committedCountZ st.ops := by
        unfold committedCountZ
        rw [sum_map_set opCount st.ops i op _ hget]
        have hc : opCount { op with snap := some ⟨st.current_balance, st.version⟩ }
            = opCount op := rfl
        rw [hc]
        ring
      refine ⟨?_, ?_, ?_⟩
      · show st.current_balance = st.monthly_limit + committedDelta (st.ops.set i
          { op with snap := some ⟨st.current_balance, st.version⟩ })
        rw [hdelta]
        exact h1
      · show (st.version : Int) = 1 + committedCountZ (st.ops.set i
          { op with snap := some ⟨st.current_balance, st.version⟩ })
        rw [hcount]
        exact h2
      · intro x hx s hs
        have hx2 : x ∈ st.ops.set i
            { op with snap := some ⟨st.current_balance, st.version⟩ } := hx
        rcases List.mem_or_eq_of_mem_set hx2 with hmem | heq
        · exact h3 x hmem s hs
        · subst heq
          have hs2 : some (⟨st.current_balance, st.version⟩ : Snapshot) = some s := hs
          injection hs2 with hs2
          subst hs2
          exact ⟨le_refl _, fun _ => rfl⟩

theorem casStep_inv (st : CasState) (i : Nat) (h : CasInv st) :
    CasInv (casStep st i) := by
  cases hget : st.ops.get? i with
  | none =>
    have hred : casStep st i = st := by simp only [casStep, hget]
    rw [hred]
    exact h
  | some op =>
    by_cases hcom : op.committed = true
    · have hred : casStep st i = st := by
        simp only [casStep, hget]
        rw [if_pos hcom]
      rw [hred]
      exact h
    · simp only [Bool.not_eq_true] at hcom
      cases hsnap : op.snap with
      | none =>
        have hred : casStep st i = st := by
          simp only [casStep, hget]
          rw [if_neg (by simp [hcom])]
          simp only [hsnap]
        rw [hred]
        exact h
      | some s =>
        by_cases hguard : s.ver = st.version ∧ (op.kind = .debit → (op.amount : Int) ≤ s.bal)
        · have hred : casStep st i = { st with
              current_balance := s.bal + op.delta
              version := st.version + 1
              ops := st.ops.set i { op with committed := true } } := by
            simp only [casStep, hget]
            rw [if_neg (by simp [hcom])]
            simp only [hsnap]
            rw [if_pos hguard]
          rw [hred]
          obtain ⟨h1, h2, h3⟩ := h
          have hmemop : op ∈ st.ops := List.get?_mem hget
          have hbal : s.bal = st.current_balance :=
            (h3 op hmemop s hsnap).2 hguard.1
          have hdelta : committedDelta (st.ops.set i { op with committed := true })
              = committedDelta st.ops + op.delta := by
            unfold committedDelta
            rw [sum_map_set opContrib st.ops i op _ hget]
            have hz : opContrib op = 0 := by simp [opContrib, hcom]
            have ho : opContrib { op with committed := true } = op.delta := rfl
            rw [hz, ho]
            ring
          have hcount : committedCountZ (st.ops.set i { op with committed := true })
              = committedCountZ st.ops + 1 := by
            unfold committedCountZ
            rw [sum_map_set opCount st.ops i op _ hget]
            have hz : opCount op = 0 := by simp [opCount, hcom]
            have ho : opCount { op with committed := true } = 1 := rfl
            rw [hz, ho]
            ring
          refine ⟨?_, ?_, ?_⟩
          · show s.bal + op.delta
              = st.monthly_limit + committedDelta (st.ops.set i { op with committed := true })
            rw [hdelta, hbal, h1]
            ring
          · show ((st.version + 1 : Nat) : Int)
              = 1 + committedCountZ (st.ops.set i { op with committed := true })
            rw [hcount]
            push_cast
            rw [h2]
            ring
          · intro x hx s' hs'
            have hx2 : x ∈ st.ops.set i { op with committed := true } := hx
            rcases List.mem_or_eq_of_mem_set hx2 with hmem | heq
            · obtain ⟨hle, _⟩ := h3 x hmem s' hs'
              constructor
              · show s'.ver ≤ st.version + 1
                omega
              · intro hEq
                have hEq2 : s'.ver = st.version + 1 := hEq
                exact absurd hEq2 (by omega)
            · subst heq
              have hs2 : op.snap = some s' := hs'
              rw [hsnap] at hs2
              injection hs2 with hs2
              have hv : s'.ver = st.version := by
                rw [← hs2]
                exact hguard.1
              constructor
              · show s'.ver ≤ st.version + 1
                omega
              · intro hEq
                have hEq2 : s'.ver = st.version + 1 := hEq
                exact absurd hEq2 (by omega)
        · have hred : casStep st i = st := by
            simp only [casStep, hget]
            rw [if_neg (by simp [hcom])]
            simp only [hsnap]
            rw [if_neg hguard]
          rw [hred]
          exact h

theorem casEventStep_inv (st : CasState) (e : CasEvent) (h : CasInv st) :
    CasInv (casEventStep st e) := by
  cases e with
  | read i => exact readStep_inv st i h
  | casAttempt i => exact casStep_inv st i h

theorem runCas_inv (events : List CasEvent) :
    ∀ st : CasState, CasInv st → CasInv (runCas st events) := by
  induction events with
  | nil => intro st h; exact h
  | cons e rest ih =>
    intro st h
    exact ih (casEventStep st e) (casEventStep_inv st e h)

theorem readStep_limit (st : CasState) (i : Nat) :
    (readStep st i).monthly_limit = st.monthly_limit := by
  unfold readStep
  split
  · rfl
  · split <;> rfl

theorem casStep_limit (st : CasState) (i : Nat) :
    (casStep st i).monthly_limit = st.monthly_limit := by
  unfold casStep
  split
  · rfl
  · split
    · rfl
    · split
      · rfl
      · split <;> rfl

theorem runCas_limit (events : List CasEvent) :
    ∀ st : CasState, (runCas st events).monthly_limit = st.monthly_limit := by
  induction events with
  | nil => intro st; rfl
  | cons e rest ih =>
    intro st
    rw [runCas, List.foldl_cons]
    have : (casEventStep st e).monthly_limit = st.monthly_limit := by
      cases e with
      | read i => exact readStep_limit st i
      | casAttempt i => exact casStep_limit st i
    rw [← this]
    exact ih (casEventStep st e)

/-- C1: for every set of concurrent Debit/Credit operations against the same
(user, month) balance row and every interleaving of their reads and
CAS attempts, each mutation is serialized by the compare-and-swap on the row's
`version` — the version counts exactly the successful mutations — and the
final `current_balance` equals `monthly_limit` minus the sum of all successful
debit amounts plus the sum of all successful credit amounts: no update is
lost, even though each writer computes its new balance from its own earlier
snapshot. -/
theorem ledger_cas_no_lost_updates (limit : Int) (ops0 : List CasOp)
    (events : List CasEvent)
    (h0 : ∀ op ∈ ops0, op.snap = none ∧ op.committed = false) :
    (runCas (CasState.init limit ops0) events).current_balance
      = limit - sumDebits (runCas (CasState.init limit ops0) events).ops
          + sumCredits (runCas (CasState.init limit ops0) events).ops ∧
    ((runCas (CasState.init limit ops0) events).version : Int)
      = 1 + (committedCount (runCas (CasState.init limit ops0) events).ops : Int) := by
  have hinv0 : CasInv (CasState.init limit ops0) := by
    refine ⟨?_, ?_, ?_⟩
    · simp [CasState.init,
        committedDelta_uncommitted ops0 (fun o ho => (h0 o ho).2)]
    · simp [CasState.init,
        committedCountZ_uncommitted ops0 (fun o ho => (h0 o ho).2)]
    · intro op hop s hs
      rw [(h0 op hop).1] at hs
      exact absurd hs (by simp)
  obtain ⟨h1, h2, h3⟩ := runCas_inv events (CasState.init limit ops0) hinv0
  have hlim : (runCas (CasState.init limit ops0) events).monthly_limit = limit := by
    rw [runCas_limit]
    rfl
  constructor
  · rw [h1, hlim, committedDelta_eq]
    ring
  · rw [h2, committedCountZ_eq]

def casOpsW : List CasOp :=
  [⟨.debit, 12, none, false⟩, ⟨.debit, 6, none, false⟩, ⟨.credit, 12, none, false⟩]

/-- An interleaving in which two debits race: both read version 1, the first
CAS wins, the second fails its CAS, re-reads and succeeds; then a refund
credit lands. -/
def casEventsW : List CasEvent :=
  [.read 0, .read 1, .casAttempt 0, .casAttempt 1, .read 1, .casAttempt 1,
   .read 2, .casAttempt 2]

/-- Witness for C1: the racing interleaving leaves the balance at
`limit - sum of committed debits + sum of committed credits`. -/
theorem ledger_cas_no_lost_updates_witness :
    (runCas (CasState.init 100 casOpsW) casEventsW).current_balance
      = 100 - sumDebits (runCas (CasState.init 100 casOpsW) casEventsW).ops
          + sumCredits (runCas (CasState.init 100 casOpsW) casEventsW).ops :=
  (ledger_cas_no_lost_updates 100 casOpsW casEventsW (by decide)).1

/-- Witness for C8: rerunning and deleting the pending task `a` are both
rejected with `InvalidState`, leaving the state unchanged. -/
theorem rerun_delete_terminal_only_backend_witness :
    RerunM ⟨12, [⟨"a", "idea", "standard", "pending", "t0", 0, "initializing"⟩], []⟩
        "a" "b" "now"
      = (⟨12, [⟨"a", "idea", "standard", "pending", "t0", 0, "initializing"⟩], []⟩,
         .error .invalidState) ∧
    DeleteM ⟨12, [⟨"a", "idea", "standard", "pending", "t0", 0, "initializing"⟩], []⟩ "a"
      = (⟨12, [⟨"a", "idea", "standard", "pending", "t0", 0, "initializing"⟩], []⟩,
         .error .invalidState) :=
  ⟨rerun_delete_terminal_only_backend.1
      ⟨12, [⟨"a", "idea", "standard", "pending", "t0", 0, "initializing"⟩], []⟩
      "a" "b" "now" ⟨"a", "idea", "standard", "pending", "t0", 0, "initializing"⟩
      (by decide) (by decide),
   rerun_delete_terminal_only_backend.2.1
      ⟨12, [⟨"a", "idea", "standard", "pending", "t0", 0, "initializing"⟩], []⟩
      "a" ⟨"a", "idea", "standard", "pending", "t0", 0, "initializing"⟩
      (by decide) (by decide)⟩

end PMR
